import Mathlib

/-!
Shallow embedding of the liquidctl-energy core (main.cpp): the step
classifier `process_step`, the bucketed accumulator `account_step` (both the
plain variant and the variant with the static most-recently-used bucket
cache), the calendar bucketing key `GroupKey.from_time`, and the run driver.

Modelling conventions:
* C++ `double` quantities (uptimes, power, `fp_seconds` durations, energies)
  are modelled as exact rationals `ℚ`.
* Timestamps (`ts_time`, nanosecond-resolution time points) are modelled as
  `ℤ` nanoseconds since the epoch.
* The host timezone (`std::chrono::current_zone()`) is an arbitrary function
  `Zone` from a system time point to the corresponding local time point.
* `std::map<GroupKey, GroupResult>` is modelled as an association list in
  insertion order with unique keys; `operator[]` lazily creates a
  zero-initialised entry.
* C++ `int` division truncates towards zero, written `Int.tdiv`.
-/

namespace LiquidctlEnergy

/-- Host timezone: maps a system time point (ns since epoch) to the local
time point (ns), as `std::chrono::zoned_time{zone, ts}.get_local_time()`. -/
abbrev Zone := ℤ → ℤ

/-- One telemetry sample (`struct Measurement` of main.cpp): wall-clock
timestamp in ns, the device's current-boot and lifetime uptime counters in
seconds, and the instantaneous input power in watts. -/
structure Measurement where
  stamp : ℤ
  uptime_cur : ℚ
  uptime_tot : ℚ
  pwr : ℚ

/-- Bucketing key (`struct GroupKey`): a (year, month) pair.  The C++ type is
`std::tuple<int,int>`; its value-initialised default is `(0, 0)`. -/
abbrev GroupKey := ℤ × ℤ

/-- Conversion from a count of days since the epoch to a civil
(year, month, day) triple, as performed by
`std::chrono::year_month_day{std::chrono::floor<std::chrono::days>(t)}`.
This is the standard civil-from-days algorithm used by the C++ standard
library and the `date` library; all divisions are C++ `int` divisions
(truncation towards zero, `Int.tdiv`). -/
def civilFromDays (z0 : ℤ) : ℤ × ℤ × ℤ :=
  let z := z0 + 719468
  let era := (if 0 ≤ z then z else z - 146096).tdiv 146097
  let doe := z - era * 146097
  let yoe := (doe - doe.tdiv 1460 + doe.tdiv 36524 - doe.tdiv 146096).tdiv 365
  let y := yoe + era * 400
  let doy := doe - (365 * yoe + yoe.tdiv 4 - yoe.tdiv 100)
  let mp := (5 * doy + 2).tdiv 153
  let d := doy - (153 * mp + 2).tdiv 5 + 1
  let m := mp + (if mp < 10 then 3 else -9)
  (y + (if m ≤ 2 then 1 else 0), m, d)

/-- `GroupKey::from_time`: convert the timestamp to local time using the
host timezone, floor it to days (`std::chrono::floor<std::chrono::days>`,
i.e. floor division by 86'400'000'000'000 ns), and take the calendar year
and month of that day. -/
def GroupKey.from_time (zone : Zone) (ts : ℤ) : GroupKey :=
  let days := zone ts / 86400000000000
  ((civilFromDays days).1, (civilFromDays days).2.1)

/-- Accumulated time (seconds) and energy (joules) for one bucket
(`struct GroupResult`). -/
structure GroupResult where
  time : ℚ
  energy_j : ℚ
deriving DecidableEq

/-- A value-initialised `GroupResult`, as created by `std::map::operator[]`
on first access. -/
def GroupResult.zero : GroupResult := ⟨0, 0⟩

/-- Derived kWh figure (`GroupResult::energy_kwh`). -/
def GroupResult.energy_kwh (g : GroupResult) : ℚ := g.energy_j / 3600 / 1000

/-- The bucket map `std::map<GroupKey, GroupResult>`, as an association list
with unique keys. -/
abbrev Buckets := List (GroupKey × GroupResult)

/-- Look up a key in the bucket map. -/
def findBucket : Buckets → GroupKey → Option GroupResult
  | [], _ => none
  | (k', g) :: bs, k => if k' = k then some g else findBucket bs k

/-- Value of a bucket, reading an absent entry as zero. -/
def bucketVal (bs : Buckets) (k : GroupKey) : GroupResult :=
  (findBucket bs k).getD GroupResult.zero

/-- Keys present in the bucket map. -/
def keysOf (bs : Buckets) : List GroupKey := bs.map Prod.fst

/-- Effect of `r.buckets[key].time += time; r.buckets[key].energy_j += energy`:
update the entry in place if present, otherwise create it (with
`operator[]`'s zero initialisation) and add to it. -/
def addToBuckets : Buckets → GroupKey → ℚ → ℚ → Buckets
  | [], k, t, e => [(k, ⟨t, e⟩)]
  | (k', g) :: bs, k, t, e =>
    if k' = k then (k', ⟨g.time + t, g.energy_j + e⟩) :: bs
    else (k', g) :: addToBuckets bs k t e

/-- `std::map::operator[]` alone: ensure an entry exists for the key,
zero-initialising it if absent, changing nothing else. -/
def ensureBucket : Buckets → GroupKey → Buckets
  | [], k => [(k, GroupResult.zero)]
  | (k', g) :: bs, k =>
    if k' = k then (k', g) :: bs else (k', g) :: ensureBucket bs k

/-- Writing through a pointer to the map entry of `k`: add to the entry in
place, or fail (`none`, modelling a dereference of a dangling location) when
no entry for `k` exists. -/
def bumpBucket : Buckets → GroupKey → ℚ → ℚ → Option Buckets
  | [], _, _, _ => none
  | (k', g) :: bs, k, t, e =>
    if k' = k then some ((k', ⟨g.time + t, g.energy_j + e⟩) :: bs)
    else (bumpBucket bs k t e).map ((k', g) :: ·)

/-- The full accumulation state (`struct Result`). -/
structure Result where
  total : GroupResult
  buckets : Buckets
  rollovers : ℕ
  bad : Bool

/-- `Result r{}`: the empty accumulation state at the start of a run. -/
def emptyResult : Result := ⟨GroupResult.zero, [], 0, false⟩

/-- `account_step` in its plain form (the snapshot without the static
cache): derive the key from the timestamp, add `time`/`energy` to
`r.total` and to `r.buckets[key]`. -/
def account_step (zone : Zone) (r : Result) (ts : ℤ) (time : ℚ) (energy : ℚ) :
    Result :=
  { total := ⟨r.total.time + time, r.total.energy_j + energy⟩
    buckets := addToBuckets r.buckets (GroupKey.from_time zone ts) time energy
    rollovers := r.rollovers
    bad := r.bad }

/-- The function-local static state of the cached `account_step`:
`static GroupKey last_key{}` and `static GroupResult *last_bucket{}`.  The
pointer is modelled as the key of the map entry it points to (map entries
are stable in `std::map` and never erased here), `none` being the null
pointer. -/
structure Cache where
  last_key : GroupKey
  last_bucket : Option GroupKey

/-- The state of the statics before the first call:
`last_key = GroupKey{} = (0,0)`, `last_bucket = nullptr`. -/
def initCache : Cache := ⟨((0 : ℤ), (0 : ℤ)), none⟩

/-- `account_step` in its cached form (the latest snapshot): if the derived
key differs from `last_key`, refresh `last_key` and point `last_bucket` at
`r.buckets[key]` (creating the entry); then add to `r.total` and through
`last_bucket`.  Returns `none` if `last_bucket` is dereferenced while null
or dangling. -/
def account_step_cached (zone : Zone) (c : Cache) (r : Result) (ts : ℤ)
    (time : ℚ) (energy : ℚ) : Option (Cache × Result) :=
  let key := GroupKey.from_time zone ts
  let st : Cache × Buckets :=
    if key ≠ c.last_key then (⟨key, some key⟩, ensureBucket r.buckets key)
    else (c, r.buckets)
  match st.1.last_bucket with
  | none => none
  | some p =>
    (bumpBucket st.2 p time energy).map fun bs =>
      (st.1,
       { total := ⟨r.total.time + time, r.total.energy_j + energy⟩
         buckets := bs
         rollovers := r.rollovers
         bad := r.bad })

/-- `delta_wall`: wall-clock delta between the two samples, converted from
ns to (floating-point) seconds. -/
def delta_wall (prev last : Measurement) : ℚ :=
  ((last.stamp - prev.stamp : ℤ) : ℚ) / 1000000000

/-- `delta_uptime_tot`: advance of the device's lifetime uptime counter. -/
def delta_uptime_tot (prev last : Measurement) : ℚ :=
  last.uptime_tot - prev.uptime_tot

/-- `delta_uptime_cur`: advance of the device's current-boot uptime
counter. -/
def delta_uptime_cur (prev last : Measurement) : ℚ :=
  last.uptime_cur - prev.uptime_cur

/-- `uptime`: the current sample's current-boot uptime, as a duration. -/
def uptime (last : Measurement) : ℚ := last.uptime_cur

/-- `process_step`: classify the step between two chronologically adjacent
measurements and update the result accordingly (main.cpp lines 111-171).
Diagnostic printing is side-channel output and is not modelled. -/
def process_step (zone : Zone) (r : Result) (prev last : Measurement) :
    Result :=
  if |delta_wall prev last - delta_uptime_tot prev last| < 2 then
    account_step zone r prev.stamp (delta_wall prev last)
      ((prev.pwr + last.pwr) * delta_wall prev last / 2)
  else if |delta_uptime_tot prev last - delta_uptime_cur prev last| < 1 then
    account_step zone r prev.stamp (delta_wall prev last)
      ((prev.pwr + last.pwr) * delta_wall prev last / 2)
  else if delta_wall prev last > uptime last then
    let r' : Result := { r with rollovers := r.rollovers + 1 }
    if delta_uptime_tot prev last < uptime last then
      account_step zone r' last.stamp (uptime last)
        (last.pwr * uptime last)
    else
      account_step zone r' prev.stamp (delta_uptime_tot prev last)
        ((prev.pwr + last.pwr) * delta_uptime_tot prev last / 2)
  else
    { r with bad := true }

/-- Fold `process_step` over a list of (previous, current) measurement
pairs. -/
def runSteps (zone : Zone) (r : Result) :
    List (Measurement × Measurement) → Result
  | [] => r
  | (p, l) :: steps => runSteps zone (process_step zone r p l) steps

/-- Outcome of extracting one raw log record in `main`'s loop, separated
by the class of exception a failure raises: `parseFail` is a
`simdjson::simdjson_error`, the only type the loop's handler
(`catch (const simdjson::simdjson_error &)`) catches, so the record is
skipped and processing continues; `fatalFail` is a unit mismatch
(`std::runtime_error` thrown by `parse_item`) or a timestamp parse
failure (`std::ios_base::failure` thrown by `parse_timestamp` through
`ss.exceptions(std::ios::failbit)`), neither of which matches that
handler, so the exception propagates out of `main` and the process
terminates. -/
inductive RecordOutcome
  | ok (m : Measurement)
  | parseFail
  | fatalFail

/-- The run of `main`'s record loop (lines 205-248) over a stream of
extraction outcomes, threading the `prev` measurement (`none` while
`is_first` holds) and the accumulation state: a successful record is
classified against the last successful one and then becomes `prev`; a
`parseFail` record is skipped by the catch handler without touching
`prev`; a `fatalFail` record's exception is not caught, so the run is
aborted (`none`) and no further record is processed. -/
def runDriverExc (zone : Zone) :
    Option Measurement → Result → List RecordOutcome → Option Result
  | _, r, [] => some r
  | prev, r, RecordOutcome.parseFail :: recs => runDriverExc zone prev r recs
  | none, r, RecordOutcome.ok m :: recs => runDriverExc zone (some m) r recs
  | some p, r, RecordOutcome.ok m :: recs =>
    runDriverExc zone (some m) (process_step zone r p m) recs
  | _, _, RecordOutcome.fatalFail :: _ => none

/-- One `account_step` call site's arguments: timestamp, elapsed time,
energy. -/
abbrev Call := ℤ × ℚ × ℚ

/-- Fold the plain `account_step` over a sequence of calls. -/
def runPlain (zone : Zone) (r : Result) : List Call → Result
  | [] => r
  | (ts, t, e) :: cs => runPlain zone (account_step zone r ts t e) cs

/-- Fold the cached `account_step` over a sequence of calls, threading the
static cache state; `none` if any call dereferences a null or dangling
bucket pointer. -/
def runCached (zone : Zone) (c : Cache) (r : Result) :
    List Call → Option (Cache × Result)
  | [] => some (c, r)
  | (ts, t, e) :: cs =>
    match account_step_cached zone c r ts t e with
    | none => none
    | some (c', r') => runCached zone c' r' cs

/-- Sum of the `time` fields over all buckets. -/
def sumTime : Buckets → ℚ
  | [] => 0
  | (_, g) :: bs => g.time + sumTime bs

/-- Sum of the `energy_j` fields over all buckets. -/
def sumEnergy : Buckets → ℚ
  | [] => 0
  | (_, g) :: bs => g.energy_j + sumEnergy bs

/-- The §3 sum invariant: the running total equals the sum over all
buckets, for both elapsed time and energy. -/
def sumInv (r : Result) : Prop :=
  r.total.time = sumTime r.buckets ∧ r.total.energy_j = sumEnergy r.buckets

/-- Consistency of the static cache with the bucket map: a null pointer only
occurs with the default-initialised `last_key`, and a non-null pointer
points at the map entry of `last_key`, which exists. -/
def CacheInv (c : Cache) (r : Result) : Prop :=
  (c.last_bucket = none → c.last_key = ((0 : ℤ), (0 : ℤ))) ∧
  (∀ k, c.last_bucket = some k → k = c.last_key ∧ k ∈ keysOf r.buckets)

/-! Helper lemmas about the bucket map. -/

theorem bucketVal_add_same (bs : Buckets) (k : GroupKey) (t e : ℚ) :
    bucketVal (addToBuckets bs k t e) k =
      ⟨(bucketVal bs k).time + t, (bucketVal bs k).energy_j + e⟩ := by
  induction bs with
  | nil => simp [bucketVal, addToBuckets, findBucket, GroupResult.zero]
  | cons hd tl ih =>
    obtain ⟨k', g⟩ := hd
    by_cases h : k' = k
    · subst h
      simp [bucketVal, addToBuckets, findBucket]
    · simp only [bucketVal, addToBuckets, if_neg h, findBucket] at ih ⊢
      exact ih

theorem bucketVal_add_other (bs : Buckets) (k k' : GroupKey) (t e : ℚ)
    (h : k' ≠ k) :
    bucketVal (addToBuckets bs k t e) k' = bucketVal bs k' := by
  induction bs with
  | nil =>
    simp [bucketVal, addToBuckets, findBucket, Ne.symm h]
  | cons hd tl ih =>
    obtain ⟨k'', g⟩ := hd
    by_cases h1 : k'' = k
    · subst h1
      simp [bucketVal, addToBuckets, findBucket, Ne.symm h]
    · by_cases h2 : k'' = k'
      · simp [bucketVal, addToBuckets, findBucket, h1, h2, h]
      · simp only [bucketVal, addToBuckets, if_neg h1, findBucket,
          if_neg h2] at ih ⊢
        exact ih

theorem sumTime_add (bs : Buckets) (k : GroupKey) (t e : ℚ) :
    sumTime (addToBuckets bs k t e) = sumTime bs + t := by
  induction bs with
  | nil => simp [addToBuckets, sumTime]
  | cons hd tl ih =>
    obtain ⟨k', g⟩ := hd
    by_cases h : k' = k
    · subst h
      simp [addToBuckets, sumTime, add_assoc, add_comm, add_left_comm]
    · simp [addToBuckets, sumTime, h, ih, add_assoc]

theorem sumEnergy_add (bs : Buckets) (k : GroupKey) (t e : ℚ) :
    sumEnergy (addToBuckets bs k t e) = sumEnergy bs + e := by
  induction bs with
  | nil => simp [addToBuckets, sumEnergy]
  | cons hd tl ih =>
    obtain ⟨k', g⟩ := hd
    by_cases h : k' = k
    · subst h
      simp [addToBuckets, sumEnergy, add_assoc, add_comm, add_left_comm]
    · simp [addToBuckets, sumEnergy, h, ih, add_assoc]

theorem keysOf_add (bs : Buckets) (k : GroupKey) (t e : ℚ) :
    keysOf (addToBuckets bs k t e) =
      if k ∈ keysOf bs then keysOf bs else keysOf bs ++ [k] := by
  induction bs with
  | nil => simp [addToBuckets, keysOf]
  | cons hd tl ih =>
    obtain ⟨k', g⟩ := hd
    simp only [keysOf] at ih ⊢
    by_cases h : k' = k
    · subst h
      simp [addToBuckets]
    · by_cases hm : k ∈ List.map Prod.fst tl <;>
        simp [addToBuckets, h, Ne.symm h, hm, ih]

theorem keysOf_subset_add (bs : Buckets) (k : GroupKey) (t e : ℚ) :
    keysOf bs ⊆ keysOf (addToBuckets bs k t e) := by
  rw [keysOf_add]
  split
  · exact fun a ha => ha
  · exact List.subset_append_left _ _

theorem mem_keysOf_add (bs : Buckets) (k : GroupKey) (t e : ℚ) :
    k ∈ keysOf (addToBuckets bs k t e) := by
  rw [keysOf_add]
  split
  · assumption
  · simp

theorem bump_ensure (bs : Buckets) (k : GroupKey) (t e : ℚ) :
    bumpBucket (ensureBucket bs k) k t e = some (addToBuckets bs k t e) := by
  induction bs with
  | nil => simp [ensureBucket, bumpBucket, addToBuckets, GroupResult.zero]
  | cons hd tl ih =>
    obtain ⟨k', g⟩ := hd
    by_cases h : k' = k <;> simp [ensureBucket, bumpBucket, addToBuckets, h, ih]

theorem bump_mem (bs : Buckets) (k : GroupKey) (t e : ℚ)
    (h : k ∈ keysOf bs) :
    bumpBucket bs k t e = some (addToBuckets bs k t e) := by
  induction bs with
  | nil => simp [keysOf] at h
  | cons hd tl ih =>
    obtain ⟨k', g⟩ := hd
    by_cases h1 : k' = k
    · simp [bumpBucket, addToBuckets, h1]
    · simp [keysOf, h1, Ne.symm h1] at h
      simp [bumpBucket, addToBuckets, h1, ih (by simpa [keysOf] using h)]

/-! Helper lemmas about the calendar conversion. -/

theorem era_tdiv (z : ℤ) :
    (if 0 ≤ z then z else z - 146096).tdiv 146097 = z / 146097 := by
  split
  · rw [Int.tdiv_eq_ediv (by omega) (by decide)]
  · have h : z - 146096 = -(146096 - z) := by ring
    rw [h, Int.neg_tdiv, Int.tdiv_eq_ediv (by omega) (by decide)]
    omega

/-- Core bound: for a day-of-era in `[0, 146096]`, the month computed by
the civil-from-days algorithm lies in `[1, 12]`. -/
theorem month_core (n : ℤ) (h0 : 0 ≤ n) (h1 : n ≤ 146096) :
    1 ≤ (fun mp => mp + (if mp < 10 then 3 else -9))
        ((5 * ((fun yoe => n - (365 * yoe + yoe.tdiv 4 - yoe.tdiv 100))
          ((n - n.tdiv 1460 + n.tdiv 36524 - n.tdiv 146096).tdiv 365)) + 2).tdiv 153) ∧
      (fun mp => mp + (if mp < 10 then 3 else -9))
        ((5 * ((fun yoe => n - (365 * yoe + yoe.tdiv 4 - yoe.tdiv 100))
          ((n - n.tdiv 1460 + n.tdiv 36524 - n.tdiv 146096).tdiv 365)) + 2).tdiv 153) ≤ 12 := by
  simp only
  rw [show n.tdiv 1460 = n / 1460 from Int.tdiv_eq_ediv h0 (by decide),
    show n.tdiv 36524 = n / 36524 from Int.tdiv_eq_ediv h0 (by decide),
    show n.tdiv 146096 = n / 146096 from Int.tdiv_eq_ediv h0 (by decide)]
  have hf0 : 0 ≤ n - n / 1460 + n / 36524 - n / 146096 := by omega
  rw [show (n - n / 1460 + n / 36524 - n / 146096).tdiv 365
      = (n - n / 1460 + n / 36524 - n / 146096) / 365 from
    Int.tdiv_eq_ediv hf0 (by decide)]
  set yoe := (n - n / 1460 + n / 36524 - n / 146096) / 365 with hyoe
  have hyoe0 : 0 ≤ yoe := by omega
  simp only [show yoe.tdiv 4 = yoe / 4 from Int.tdiv_eq_ediv hyoe0 (by decide),
    show yoe.tdiv 100 = yoe / 100 from Int.tdiv_eq_ediv hyoe0 (by decide)]
  set doy := n - (365 * yoe + yoe / 4 - yoe / 100) with hdoy
  have hdb : -4 ≤ doy ∧ doy ≤ 469 := by omega
  rcases le_or_lt 0 (5 * doy + 2) with hpos | hneg
  · simp only [show (5 * doy + 2).tdiv 153 = (5 * doy + 2) / 153 from
      Int.tdiv_eq_ediv hpos (by decide)]
    split <;> constructor <;> omega
  · have hz : (5 * doy + 2).tdiv 153 = 0 := by
      have h : 5 * doy + 2 = -(-(5 * doy + 2)) := by ring
      rw [h, Int.neg_tdiv,
        Int.tdiv_eq_ediv (a := -(5 * doy + 2)) (by omega) (by decide)]
      omega
    simp only [hz]
    norm_num

/-- The civil-from-days conversion always yields a month between 1 and 12,
whatever (possibly negative) day count it is given. -/
theorem civilFromDays_month (z0 : ℤ) :
    1 ≤ (civilFromDays z0).2.1 ∧ (civilFromDays z0).2.1 ≤ 12 := by
  have h := month_core
    (z0 + 719468 - (z0 + 719468) / 146097 * 146097)
    (by omega) (by omega)
  simp only at h
  simp only [civilFromDays, era_tdiv]
  exact h

/-- The bucketing key always has a month component in `[1, 12]`; in
particular it never equals the value-initialised sentinel `(0, 0)`. -/
theorem from_time_month (zone : Zone) (ts : ℤ) :
    1 ≤ (GroupKey.from_time zone ts).2 ∧
      (GroupKey.from_time zone ts).2 ≤ 12 := by
  unfold GroupKey.from_time
  exact civilFromDays_month _

theorem from_time_ne_default (zone : Zone) (ts : ℤ) :
    GroupKey.from_time zone ts ≠ ((0 : ℤ), (0 : ℤ)) := by
  intro h
  have hm := (from_time_month zone ts).1
  rw [h] at hm
  exact absurd hm (by norm_num)

/-! Preservation lemmas for the accumulator and the classifier. -/

theorem account_sumInv (zone : Zone) (r : Result) (ts : ℤ) (t e : ℚ)
    (h : sumInv r) : sumInv (account_step zone r ts t e) := by
  obtain ⟨ht, he⟩ := h
  exact ⟨by simp [account_step, sumTime_add, ht],
    by simp [account_step, sumEnergy_add, he]⟩

theorem account_mono (zone : Zone) (r : Result) (ts : ℤ) (t e : ℚ)
    (ht : 0 ≤ t) (he : 0 ≤ e) :
    r.total.time ≤ (account_step zone r ts t e).total.time ∧
    r.total.energy_j ≤ (account_step zone r ts t e).total.energy_j ∧
    ∀ k, (bucketVal r.buckets k).time ≤
        (bucketVal (account_step zone r ts t e).buckets k).time ∧
      (bucketVal r.buckets k).energy_j ≤
        (bucketVal (account_step zone r ts t e).buckets k).energy_j := by
  refine ⟨by simp [account_step]; linarith,
    by simp [account_step]; linarith, fun k => ?_⟩
  by_cases hk : k = GroupKey.from_time zone ts
  · subst hk
    simp only [account_step, bucketVal_add_same]
    constructor <;> simp <;> linarith
  · simp only [account_step, bucketVal_add_other _ _ _ _ _ hk, le_refl,
      and_self]

theorem process_sumInv (zone : Zone) (r : Result) (prev last : Measurement)
    (h : sumInv r) : sumInv (process_step zone r prev last) := by
  simp only [process_step]
  split_ifs <;> first
    | exact account_sumInv _ _ _ _ _ h
    | exact h

theorem process_keys (zone : Zone) (r : Result) (prev last : Measurement) :
    keysOf r.buckets ⊆ keysOf (process_step zone r prev last).buckets := by
  simp only [process_step]
  split_ifs <;> first
    | exact keysOf_subset_add _ _ _ _
    | exact fun a ha => ha

theorem process_rollovers (zone : Zone) (r : Result)
    (prev last : Measurement) :
    r.rollovers ≤ (process_step zone r prev last).rollovers := by
  simp only [process_step]
  split_ifs <;> simp [account_step]

theorem process_bad (zone : Zone) (r : Result) (prev last : Measurement)
    (h : r.bad = true) : (process_step zone r prev last).bad = true := by
  simp only [process_step]
  split_ifs <;> simp [account_step, h]

theorem runSteps_append (zone : Zone) (s t : List (Measurement × Measurement)) :
    ∀ r, runSteps zone r (s ++ t) = runSteps zone (runSteps zone r s) t := by
  induction s with
  | nil => intro r; rfl
  | cons hd tl ih =>
    intro r
    obtain ⟨p, l⟩ := hd
    simp only [List.cons_append, runSteps]
    exact ih _

theorem runSteps_sumInv (zone : Zone) (steps : List (Measurement × Measurement)) :
    ∀ r, sumInv r → sumInv (runSteps zone r steps) := by
  induction steps with
  | nil => exact fun r h => h
  | cons hd tl ih =>
    intro r h
    obtain ⟨p, l⟩ := hd
    exact ih _ (process_sumInv _ _ _ _ h)

theorem runSteps_keys (zone : Zone) (steps : List (Measurement × Measurement)) :
    ∀ r, keysOf r.buckets ⊆ keysOf (runSteps zone r steps).buckets := by
  induction steps with
  | nil => exact fun r a ha => ha
  | cons hd tl ih =>
    intro r
    obtain ⟨p, l⟩ := hd
    exact fun a ha => ih _ (process_keys zone r p l ha)

theorem runSteps_rollovers (zone : Zone)
    (steps : List (Measurement × Measurement)) :
    ∀ r, r.rollovers ≤ (runSteps zone r steps).rollovers := by
  induction steps with
  | nil => exact fun r => le_refl _
  | cons hd tl ih =>
    intro r
    obtain ⟨p, l⟩ := hd
    exact le_trans (process_rollovers zone r p l) (ih _)

theorem runSteps_bad (zone : Zone) (steps : List (Measurement × Measurement)) :
    ∀ r, r.bad = true → (runSteps zone r steps).bad = true := by
  induction steps with
  | nil => exact fun r h => h
  | cons hd tl ih =>
    intro r h
    obtain ⟨p, l⟩ := hd
    exact ih _ (process_bad zone r p l h)

/-! Cached accumulator: one step refines the plain accumulator. -/

theorem cached_step_eq (zone : Zone) (c : Cache) (r : Result) (ts : ℤ)
    (t e : ℚ) (h : CacheInv c r) :
    account_step_cached zone c r ts t e =
      some (⟨GroupKey.from_time zone ts, some (GroupKey.from_time zone ts)⟩,
        account_step zone r ts t e) ∧
    CacheInv ⟨GroupKey.from_time zone ts, some (GroupKey.from_time zone ts)⟩
      (account_step zone r ts t e) := by
  obtain ⟨ck, cb⟩ := c
  constructor
  · by_cases hkey : GroupKey.from_time zone ts = ck
    · -- cache hit: the pointer must already point at the entry of the key
      have hb : cb = some (GroupKey.from_time zone ts) := by
        cases hcb : cb with
        | none =>
          exact absurd (hkey.trans (h.1 hcb)) (from_time_ne_default zone ts)
        | some k =>
          rw [(h.2 k hcb).1, hkey]
      have hmem : GroupKey.from_time zone ts ∈ keysOf r.buckets :=
        (h.2 _ hb).2
      subst hb
      subst hkey
      simp [account_step_cached, bump_mem r.buckets _ t e hmem, account_step]
    · -- cache miss: refresh the key and the pointer
      simp [account_step_cached, hkey, bump_ensure r.buckets _ t e,
        account_step]
  · refine ⟨fun h' => Option.noConfusion h', fun k hk => ?_⟩
    injection hk with hk2
    subst hk2
    exact ⟨rfl, mem_keysOf_add _ _ _ _⟩

theorem runCached_eq (zone : Zone) (cs : List Call) :
    ∀ (c : Cache) (r : Result), CacheInv c r →
      ∃ c', runCached zone c r cs = some (c', runPlain zone r cs) ∧
        CacheInv c' (runPlain zone r cs) := by
  induction cs with
  | nil => exact fun c r h => ⟨c, rfl, h⟩
  | cons hd tl ih =>
    intro c r h
    obtain ⟨ts, t, e⟩ := hd
    obtain ⟨hstep, hinv⟩ := cached_step_eq zone c r ts t e h
    obtain ⟨c', h1, h2⟩ := ih _ _ hinv
    exact ⟨c', by simp only [runCached, runPlain, hstep, h1], h2⟩

theorem cacheInv_init (r : Result) : CacheInv initCache r :=
  ⟨fun _ => rfl, fun k hk => by simp [initCache] at hk⟩

/-! Claim theorems. -/

/-- C1: For every step over two measurements (previous, current),
classification follows a fixed decision order in which the first matching
rule wins: if `|delta_wall − delta_uptime_total| < 2` seconds the step is
Consistent and proceeds to integration using `delta_wall`; otherwise, if
`|delta_uptime_total − delta_uptime_current| < 1` second the step is
Imprecise-but-continuous and still proceeds to integration using
`delta_wall`; otherwise, if `delta_wall > current.uptime_current` the step
is a Rollover; otherwise the step is Inconsistent. -/
theorem classification_decision_order (zone : Zone) (r : Result)
    (prev last : Measurement) :
    (|delta_wall prev last - delta_uptime_tot prev last| < 2 →
      process_step zone r prev last =
        account_step zone r prev.stamp (delta_wall prev last)
          ((prev.pwr + last.pwr) * delta_wall prev last / 2)) ∧
    (¬ |delta_wall prev last - delta_uptime_tot prev last| < 2 →
      |delta_uptime_tot prev last - delta_uptime_cur prev last| < 1 →
      process_step zone r prev last =
        account_step zone r prev.stamp (delta_wall prev last)
          ((prev.pwr + last.pwr) * delta_wall prev last / 2)) ∧
    (¬ |delta_wall prev last - delta_uptime_tot prev last| < 2 →
      ¬ |delta_uptime_tot prev last - delta_uptime_cur prev last| < 1 →
      delta_wall prev last > uptime last →
      (process_step zone r prev last).rollovers = r.rollovers + 1 ∧
        (process_step zone r prev last).bad = r.bad) ∧
    (¬ |delta_wall prev last - delta_uptime_tot prev last| < 2 →
      ¬ |delta_uptime_tot prev last - delta_uptime_cur prev last| < 1 →
      ¬ delta_wall prev last > uptime last →
      process_step zone r prev last = { r with bad := true }) := by
  refine ⟨fun h1 => ?_, fun h1 h2 => ?_, fun h1 h2 h3 => ?_,
    fun h1 h2 h3 => ?_⟩
  · simp only [process_step, if_pos h1]
  · simp only [process_step, if_neg h1, if_pos h2]
  · simp only [process_step, if_neg h1, if_neg h2, if_pos h3]
    split <;> simp [account_step]
  · simp only [process_step, if_neg h1, if_neg h2, if_neg h3]

theorem classification_decision_order_witness :
    process_step (fun ts => ts) emptyResult (Measurement.mk 0 5 100 500)
        (Measurement.mk 60000000000 65 160 500) =
      account_step (fun ts => ts) emptyResult
        (Measurement.mk 0 5 100 500).stamp
        (delta_wall (Measurement.mk 0 5 100 500)
          (Measurement.mk 60000000000 65 160 500))
        (((Measurement.mk 0 5 100 500).pwr +
            (Measurement.mk 60000000000 65 160 500).pwr) *
          delta_wall (Measurement.mk 0 5 100 500)
            (Measurement.mk 60000000000 65 160 500) / 2) :=
  (classification_decision_order (fun ts => ts) emptyResult
    (Measurement.mk 0 5 100 500) (Measurement.mk 60000000000 65 160 500)).1
    (by norm_num [delta_wall, delta_uptime_tot])

/-- C6: For every step matching none of rules 1–3 (Inconsistent),
`process_step` sets `result.bad = true` and changes nothing else in the
Result: no time or energy is added to the total or to any bucket, no
bucket is created, and `rollover_count` is unchanged. -/
theorem inconsistent_step_only_sets_bad (zone : Zone) (r : Result)
    (prev last : Measurement)
    (h1 : ¬ |delta_wall prev last - delta_uptime_tot prev last| < 2)
    (h2 : ¬ |delta_uptime_tot prev last - delta_uptime_cur prev last| < 1)
    (h3 : ¬ delta_wall prev last > uptime last) :
    process_step zone r prev last = { r with bad := true } ∧
    (process_step zone r prev last).bad = true ∧
    (process_step zone r prev last).total = r.total ∧
    (process_step zone r prev last).buckets = r.buckets ∧
    (process_step zone r prev last).rollovers = r.rollovers := by
  have hp : process_step zone r prev last = { r with bad := true } := by
    simp only [process_step, if_neg h1, if_neg h2, if_neg h3]
  exact ⟨hp, by rw [hp], by rw [hp], by rw [hp], by rw [hp]⟩

theorem inconsistent_step_only_sets_bad_witness :
    process_step (fun ts => ts) emptyResult (Measurement.mk 0 0 0 0)
        (Measurement.mk 10000000000 100 50 0) =
      { emptyResult with bad := true } :=
  (inconsistent_step_only_sets_bad (fun ts => ts) emptyResult
    (Measurement.mk 0 0 0 0) (Measurement.mk 10000000000 100 50 0)
    (by norm_num [delta_wall, delta_uptime_tot])
    (by norm_num [delta_uptime_tot, delta_uptime_cur])
    (by norm_num [delta_wall, uptime])).1

/-- C2: For every step classified as Rollover (rules 1–2 fail and
`delta_wall > current.uptime_current`) whose lifetime counter is suspect
(`delta_uptime_total < current.uptime_current`), `process_step` increments
`rollover_count` by exactly 1, does not set `bad`, adds exactly
`current.uptime_current` seconds of elapsed time and exactly
`current.input_power × current.uptime_current` joules to the total and to
the bucket derived from `current.timestamp`, and adds nothing else
anywhere. -/
theorem rollover_suspect_accounting (zone : Zone) (r : Result)
    (prev last : Measurement)
    (h1 : ¬ |delta_wall prev last - delta_uptime_tot prev last| < 2)
    (h2 : ¬ |delta_uptime_tot prev last - delta_uptime_cur prev last| < 1)
    (h3 : delta_wall prev last > uptime last)
    (h4 : delta_uptime_tot prev last < uptime last) :
    process_step zone r prev last =
      account_step zone { r with rollovers := r.rollovers + 1 } last.stamp
        (uptime last) (last.pwr * uptime last) ∧
    (process_step zone r prev last).rollovers = r.rollovers + 1 ∧
    (process_step zone r prev last).bad = r.bad ∧
    (process_step zone r prev last).total.time = r.total.time + uptime last ∧
    (process_step zone r prev last).total.energy_j =
      r.total.energy_j + last.pwr * uptime last ∧
    bucketVal (process_step zone r prev last).buckets
        (GroupKey.from_time zone last.stamp) =
      ⟨(bucketVal r.buckets (GroupKey.from_time zone last.stamp)).time +
          uptime last,
        (bucketVal r.buckets (GroupKey.from_time zone last.stamp)).energy_j +
          last.pwr * uptime last⟩ ∧
    ∀ k, k ≠ GroupKey.from_time zone last.stamp →
      bucketVal (process_step zone r prev last).buckets k =
        bucketVal r.buckets k := by
  have hp : process_step zone r prev last =
      account_step zone { r with rollovers := r.rollovers + 1 } last.stamp
        (uptime last) (last.pwr * uptime last) := by
    simp only [process_step, if_neg h1, if_neg h2, if_pos h3, if_pos h4]
  refine ⟨hp, ?_, ?_, ?_, ?_, ?_, ?_⟩
  · rw [hp]; rfl
  · rw [hp]; rfl
  · rw [hp]; rfl
  · rw [hp]; rfl
  · rw [hp]
    exact bucketVal_add_same _ _ _ _
  · intro k hk
    rw [hp]
    exact bucketVal_add_other _ _ _ _ _ hk

theorem rollover_suspect_accounting_witness :
    (process_step (fun ts => ts) emptyResult (Measurement.mk 0 100 1000 500)
        (Measurement.mk 10000000000000 50 1020 400)).rollovers =
      emptyResult.rollovers + 1 ∧
    (process_step (fun ts => ts) emptyResult (Measurement.mk 0 100 1000 500)
        (Measurement.mk 10000000000000 50 1020 400)).total.time =
      emptyResult.total.time + uptime (Measurement.mk 10000000000000 50 1020 400) := by
  have h := rollover_suspect_accounting (fun ts => ts) emptyResult
    (Measurement.mk 0 100 1000 500) (Measurement.mk 10000000000000 50 1020 400)
    (by norm_num [delta_wall, delta_uptime_tot])
    (by norm_num [delta_uptime_tot, delta_uptime_cur])
    (by norm_num [delta_wall, uptime])
    (by norm_num [delta_uptime_tot, uptime])
  exact ⟨h.2.1, h.2.2.2.1⟩

/-- C3: For every step classified as Rollover whose lifetime counter is
trustworthy (`delta_uptime_total ≥ current.uptime_current`), `process_step`
increments `rollover_count` by exactly 1, does not set `bad`, and
integrates trapezoidally using `delta_uptime_total` in place of
`delta_wall`: it adds `delta_uptime_total` seconds of elapsed time and
`(previous.input_power + current.input_power) × delta_uptime_total / 2`
joules, attributed to the bucket of `previous.timestamp`. -/
theorem rollover_trustworthy_accounting (zone : Zone) (r : Result)
    (prev last : Measurement)
    (h1 : ¬ |delta_wall prev last - delta_uptime_tot prev last| < 2)
    (h2 : ¬ |delta_uptime_tot prev last - delta_uptime_cur prev last| < 1)
    (h3 : delta_wall prev last > uptime last)
    (h4 : delta_uptime_tot prev last ≥ uptime last) :
    process_step zone r prev last =
      account_step zone { r with rollovers := r.rollovers + 1 } prev.stamp
        (delta_uptime_tot prev last)
        ((prev.pwr + last.pwr) * delta_uptime_tot prev last / 2) ∧
    (process_step zone r prev last).rollovers = r.rollovers + 1 ∧
    (process_step zone r prev last).bad = r.bad ∧
    (process_step zone r prev last).total.time =
      r.total.time + delta_uptime_tot prev last ∧
    (process_step zone r prev last).total.energy_j =
      r.total.energy_j + (prev.pwr + last.pwr) * delta_uptime_tot prev last / 2 ∧
    bucketVal (process_step zone r prev last).buckets
        (GroupKey.from_time zone prev.stamp) =
      ⟨(bucketVal r.buckets (GroupKey.from_time zone prev.stamp)).time +
          delta_uptime_tot prev last,
        (bucketVal r.buckets (GroupKey.from_time zone prev.stamp)).energy_j +
          (prev.pwr + last.pwr) * delta_uptime_tot prev last / 2⟩ ∧
    ∀ k, k ≠ GroupKey.from_time zone prev.stamp →
      bucketVal (process_step zone r prev last).buckets k =
        bucketVal r.buckets k := by
  have hp : process_step zone r prev last =
      account_step zone { r with rollovers := r.rollovers + 1 } prev.stamp
        (delta_uptime_tot prev last)
        ((prev.pwr + last.pwr) * delta_uptime_tot prev last / 2) := by
    simp only [process_step, if_neg h1, if_neg h2, if_pos h3,
      if_neg (not_lt.mpr h4)]
  refine ⟨hp, ?_, ?_, ?_, ?_, ?_, ?_⟩
  · rw [hp]; rfl
  · rw [hp]; rfl
  · rw [hp]; rfl
  · rw [hp]; rfl
  · rw [hp]
    exact bucketVal_add_same _ _ _ _
  · intro k hk
    rw [hp]
    exact bucketVal_add_other _ _ _ _ _ hk

theorem rollover_trustworthy_accounting_witness :
    (process_step (fun ts => ts) emptyResult (Measurement.mk 0 100 1000 500)
        (Measurement.mk 10000000000000 50 10990 400)).rollovers =
      emptyResult.rollovers + 1 ∧
    (process_step (fun ts => ts) emptyResult (Measurement.mk 0 100 1000 500)
        (Measurement.mk 10000000000000 50 10990 400)).bad =
      emptyResult.bad := by
  have h := rollover_trustworthy_accounting (fun ts => ts) emptyResult
    (Measurement.mk 0 100 1000 500) (Measurement.mk 10000000000000 50 10990 400)
    (by norm_num [delta_wall, delta_uptime_tot])
    (by norm_num [delta_uptime_tot, delta_uptime_cur])
    (by norm_num [delta_wall, uptime])
    (by norm_num [delta_uptime_tot, uptime])
  exact ⟨h.2.1, h.2.2.1⟩

/-- C4: For every step that reaches integration (rules 1, 2, or the
trustworthy-counter branch of rule 3), the energy accounted is
`(previous.input_power + current.input_power) × delta_wall_seconds / 2`
(with `delta_wall` substituted by `delta_uptime_total` in the rule-3
branch), and both the elapsed time and energy of the step are attributed
entirely to the calendar (year, month) bucket derived from
`previous.timestamp` in the host's local timezone — never split across two
buckets, even when the interval crosses a month boundary. -/
theorem integration_trapezoid_attribution (zone : Zone) (r : Result)
    (prev last : Measurement)
    (h : |delta_wall prev last - delta_uptime_tot prev last| < 2 ∨
      (¬ |delta_wall prev last - delta_uptime_tot prev last| < 2 ∧
        |delta_uptime_tot prev last - delta_uptime_cur prev last| < 1) ∨
      (¬ |delta_wall prev last - delta_uptime_tot prev last| < 2 ∧
        ¬ |delta_uptime_tot prev last - delta_uptime_cur prev last| < 1 ∧
        delta_wall prev last > uptime last ∧
        delta_uptime_tot prev last ≥ uptime last))
    (eff : ℚ)
    (heff : eff =
      if ¬ |delta_wall prev last - delta_uptime_tot prev last| < 2 ∧
          ¬ |delta_uptime_tot prev last - delta_uptime_cur prev last| < 1
      then delta_uptime_tot prev last else delta_wall prev last) :
    (process_step zone r prev last).total.time = r.total.time + eff ∧
    (process_step zone r prev last).total.energy_j =
      r.total.energy_j + (prev.pwr + last.pwr) * eff / 2 ∧
    bucketVal (process_step zone r prev last).buckets
        (GroupKey.from_time zone prev.stamp) =
      ⟨(bucketVal r.buckets (GroupKey.from_time zone prev.stamp)).time + eff,
        (bucketVal r.buckets (GroupKey.from_time zone prev.stamp)).energy_j +
          (prev.pwr + last.pwr) * eff / 2⟩ ∧
    ∀ k, k ≠ GroupKey.from_time zone prev.stamp →
      bucketVal (process_step zone r prev last).buckets k =
        bucketVal r.buckets k := by
  rcases h with h1 | ⟨h1, h2⟩ | ⟨h1, h2, h3, h4⟩
  · have heq : eff = delta_wall prev last := by
      rw [heff, if_neg (fun hc => hc.1 h1)]
    subst heq
    have hp : process_step zone r prev last =
        account_step zone r prev.stamp (delta_wall prev last)
          ((prev.pwr + last.pwr) * delta_wall prev last / 2) := by
      simp only [process_step, if_pos h1]
    exact ⟨by rw [hp]; rfl, by rw [hp]; rfl,
      by rw [hp]; exact bucketVal_add_same _ _ _ _,
      fun k hk => by rw [hp]; exact bucketVal_add_other _ _ _ _ _ hk⟩
  · have heq : eff = delta_wall prev last := by
      rw [heff, if_neg (fun hc => hc.2 h2)]
    subst heq
    have hp : process_step zone r prev last =
        account_step zone r prev.stamp (delta_wall prev last)
          ((prev.pwr + last.pwr) * delta_wall prev last / 2) := by
      simp only [process_step, if_neg h1, if_pos h2]
    exact ⟨by rw [hp]; rfl, by rw [hp]; rfl,
      by rw [hp]; exact bucketVal_add_same _ _ _ _,
      fun k hk => by rw [hp]; exact bucketVal_add_other _ _ _ _ _ hk⟩
  · have heq : eff = delta_uptime_tot prev last := by
      rw [heff, if_pos ⟨h1, h2⟩]
    subst heq
    have hp : process_step zone r prev last =
        account_step zone { r with rollovers := r.rollovers + 1 } prev.stamp
          (delta_uptime_tot prev last)
          ((prev.pwr + last.pwr) * delta_uptime_tot prev last / 2) := by
      simp only [process_step, if_neg h1, if_neg h2, if_pos h3,
        if_neg (not_lt.mpr h4)]
    exact ⟨by rw [hp]; rfl, by rw [hp]; rfl,
      by rw [hp]; exact bucketVal_add_same _ _ _ _,
      fun k hk => by rw [hp]; exact bucketVal_add_other _ _ _ _ _ hk⟩

theorem integration_trapezoid_attribution_witness :
    (process_step (fun ts => ts) emptyResult (Measurement.mk 0 5 100 300)
        (Measurement.mk 120000000000 125 220 500)).total.time =
      emptyResult.total.time +
        delta_wall (Measurement.mk 0 5 100 300)
          (Measurement.mk 120000000000 125 220 500) :=
  (integration_trapezoid_attribution (fun ts => ts) emptyResult
    (Measurement.mk 0 5 100 300) (Measurement.mk 120000000000 125 220 500)
    (Or.inl (by norm_num [delta_wall, delta_uptime_tot]))
    (delta_wall (Measurement.mk 0 5 100 300)
      (Measurement.mk 120000000000 125 220 500))
    (by norm_num [delta_wall, delta_uptime_tot, delta_uptime_cur])).1

/-- C5: For every sequence of processed steps starting from the empty
Result, after every operation: `total.time` equals the sum of `time` over
all buckets and `total.energy_j` equals the sum of `energy_j` over all
buckets; a bucket once created is never removed; `rollover_count` never
decreases; and `bad` only transitions from false to true, never back. -/
theorem result_invariants (zone : Zone)
    (steps : List (Measurement × Measurement)) (n m : ℕ) (h : n ≤ m) :
    sumInv (runSteps zone emptyResult (steps.take n)) ∧
    keysOf (runSteps zone emptyResult (steps.take n)).buckets ⊆
      keysOf (runSteps zone emptyResult (steps.take m)).buckets ∧
    (runSteps zone emptyResult (steps.take n)).rollovers ≤
      (runSteps zone emptyResult (steps.take m)).rollovers ∧
    ((runSteps zone emptyResult (steps.take n)).bad = true →
      (runSteps zone emptyResult (steps.take m)).bad = true) := by
  have hsplit : steps.take m = steps.take n ++ (steps.drop n).take (m - n) := by
    rw [← List.take_add]
    congr 1
    omega
  have hemp : sumInv emptyResult := ⟨rfl, rfl⟩
  refine ⟨runSteps_sumInv zone _ _ hemp, ?_, ?_, ?_⟩ <;>
    rw [hsplit, runSteps_append]
  · exact runSteps_keys zone _ _
  · exact runSteps_rollovers zone _ _
  · exact runSteps_bad zone _ _

theorem result_invariants_witness :
    sumInv (runSteps (fun ts => ts) emptyResult
      ([(Measurement.mk 0 5 100 500,
          Measurement.mk 60000000000 65 160 500)].take 0)) ∧
    (runSteps (fun ts => ts) emptyResult
      ([(Measurement.mk 0 5 100 500,
          Measurement.mk 60000000000 65 160 500)].take 0)).rollovers ≤
    (runSteps (fun ts => ts) emptyResult
      ([(Measurement.mk 0 5 100 500,
          Measurement.mk 60000000000 65 160 500)].take 1)).rollovers := by
  have h := result_invariants (fun ts => ts)
    [(Measurement.mk 0 5 100 500, Measurement.mk 60000000000 65 160 500)]
    0 1 (by norm_num)
  exact ⟨h.1, h.2.2.1⟩

/-- C7: the claim states that for every input stream, a record that fails
extraction is skipped entirely, never becomes the previous measurement,
and the run is not aborted, so a 3-record stream whose record 2 fails
extraction runs exactly one step comparing records 1 and 3.  The code
satisfies this only for `simdjson_error` failures: `main`'s catch handler
catches nothing else, so a record whose extraction fails with a unit
mismatch (`std::runtime_error` from `parse_item`) or a timestamp parse
failure (`std::ios_base::failure` from `parse_timestamp`) aborts the whole
run and zero steps are performed, while the same stream with a caught
parse failure in record 2 does yield the single claimed step. -/
theorem fatal_extraction_aborts_run :
    runDriverExc (fun ts => ts) none emptyResult
      [RecordOutcome.ok (Measurement.mk 0 5 100 500),
       RecordOutcome.fatalFail,
       RecordOutcome.ok (Measurement.mk 60000000000 65 160 500)] = none ∧
    runDriverExc (fun ts => ts) none emptyResult
      [RecordOutcome.ok (Measurement.mk 0 5 100 500),
       RecordOutcome.parseFail,
       RecordOutcome.ok (Measurement.mk 60000000000 65 160 500)] =
      some (process_step (fun ts => ts) emptyResult
        (Measurement.mk 0 5 100 500)
        (Measurement.mk 60000000000 65 160 500)) :=
  ⟨rfl, rfl⟩

/-- C8: For every sequence of account calls within a single run starting
from the empty Result, the accumulator with the static cached
most-recently-used bucket pointer produces exactly the same Result — same
total, same buckets, same per-bucket time and energy — as the plain
accumulator that performs a map lookup on every call. -/
theorem cached_accumulator_refines_plain (zone : Zone) (cs : List Call) :
    (runCached zone initCache emptyResult cs).map Prod.snd =
      some (runPlain zone emptyResult cs) := by
  obtain ⟨c', h1, _⟩ :=
    runCached_eq zone cs initCache emptyResult (cacheInv_init emptyResult)
  rw [h1]
  rfl

/-- C9: In the cached accumulator, the static bucket pointer is never
dereferenced while null: for every timestamp, `GroupKey::from_time` yields
a month component between 1 and 12, so the derived key never equals the
default-constructed sentinel key `(0, 0)`, and therefore the first account
call of a run always takes the key-changed branch and initialises the
pointer before it is dereferenced. -/
theorem cached_pointer_never_null :
    (∀ (zone : Zone) (ts : ℤ),
      1 ≤ (GroupKey.from_time zone ts).2 ∧
        (GroupKey.from_time zone ts).2 ≤ 12 ∧
        GroupKey.from_time zone ts ≠ ((0 : ℤ), (0 : ℤ))) ∧
    (∀ (zone : Zone) (r : Result) (ts : ℤ) (t e : ℚ),
      (account_step_cached zone initCache r ts t e).isSome = true) := by
  refine ⟨fun zone ts => ⟨(from_time_month zone ts).1,
    (from_time_month zone ts).2, from_time_ne_default zone ts⟩,
    fun zone r ts t e => ?_⟩
  rw [(cached_step_eq zone initCache r ts t e (cacheInv_init r)).1]
  rfl

/-- C10: For every step whose inputs satisfy the implicit preconditions
(`current.timestamp > previous.timestamp`, non-negative input power in both
measurements, and non-negative uptime counters), `process_step` never
decreases `total.time`, `total.energy_j`, or any bucket's time or energy:
every contribution accounted on every branch is non-negative. -/
theorem process_step_monotone (zone : Zone) (r : Result)
    (prev last : Measurement)
    (hst : prev.stamp < last.stamp)
    (hp1 : 0 ≤ prev.pwr) (hp2 : 0 ≤ last.pwr)
    (hu1 : 0 ≤ prev.uptime_cur) (hu2 : 0 ≤ last.uptime_cur)
    (hu3 : 0 ≤ prev.uptime_tot) (hu4 : 0 ≤ last.uptime_tot) :
    r.total.time ≤ (process_step zone r prev last).total.time ∧
    r.total.energy_j ≤ (process_step zone r prev last).total.energy_j ∧
    ∀ k, (bucketVal r.buckets k).time ≤
        (bucketVal (process_step zone r prev last).buckets k).time ∧
      (bucketVal r.buckets k).energy_j ≤
        (bucketVal (process_step zone r prev last).buckets k).energy_j := by
  have hdw : 0 ≤ delta_wall prev last := by
    unfold delta_wall
    have hc : (0:ℚ) ≤ ((last.stamp - prev.stamp : ℤ) : ℚ) := by
      exact_mod_cast Int.sub_nonneg.mpr (le_of_lt hst)
    exact div_nonneg hc (by norm_num)
  have hup : (0:ℚ) ≤ uptime last := hu2
  simp only [process_step]
  split_ifs with h1 h2 h3 h4
  · exact account_mono zone r _ _ _ hdw
      (div_nonneg (mul_nonneg (add_nonneg hp1 hp2) hdw) (by norm_num))
  · exact account_mono zone r _ _ _ hdw
      (div_nonneg (mul_nonneg (add_nonneg hp1 hp2) hdw) (by norm_num))
  · exact account_mono zone _ _ _ _ hup (mul_nonneg hp2 hup)
  · have hdt : 0 ≤ delta_uptime_tot prev last :=
      le_trans hup (not_lt.mp h4)
    exact account_mono zone _ _ _ _ hdt
      (div_nonneg (mul_nonneg (add_nonneg hp1 hp2) hdt) (by norm_num))
  · exact ⟨le_refl _, le_refl _, fun k => ⟨le_refl _, le_refl _⟩⟩

theorem process_step_monotone_witness :
    emptyResult.total.time ≤
      (process_step (fun ts => ts) emptyResult (Measurement.mk 0 5 100 300)
        (Measurement.mk 120000000000 125 220 500)).total.time :=
  (process_step_monotone (fun ts => ts) emptyResult
    (Measurement.mk 0 5 100 300) (Measurement.mk 120000000000 125 220 500)
    (by norm_num) (by norm_num) (by norm_num) (by norm_num) (by norm_num)
    (by norm_num) (by norm_num)).1

end LiquidctlEnergy
